import Mathlib

/-!
Verification of the `httpencode` HTTP/1.x header-encoding library.

Bytes are modelled as `Nat` (the Rust code works on `u8` slices; every
byte-producing path below only produces values < 256, and the validators are
proven for arbitrary `Nat` inputs, which subsumes the byte range).
A Rust `&[u8]` or `&str` becomes `List Nat`.

The destination `BufMut` sink is modelled by `Buffer`: a capacity-bounded
append-only byte sink.  The `FallibleBufMut` extension methods
(`try_put_slice`, `try_put_u8`) check remaining capacity first and either
append or fail without writing, exactly as in `src/util.rs`.  Rust's `?`
early-return on `InsufficientSpaceError` becomes `wseq`; a writer returns
the (possibly partially written) buffer together with `Option WErr`
(`none` = `Ok(())`).  `WErr.space` models `InsufficientSpaceError`;
`WErr.panicked` models a Rust panic (`unreachable!()` / out-of-bounds
indexing), kept distinct so that "returns an error rather than panicking"
is a real statement.
-/

namespace Httpencode

/-- A Rust panic is kept distinct from `InsufficientSpaceError`. -/
inductive WErr where
  | space
  | panicked
deriving Repr, DecidableEq

/-- The destination sink: an append-only byte buffer with a fixed capacity
(`remaining_mut` of the `bytes::BufMut` contract is `cap - data.length`). -/
structure Buffer where
  data : List Nat
  cap : Nat
deriving Repr, DecidableEq

/-- `remaining_mut()` of the sink. -/
def Buffer.remainingMut (b : Buffer) : Nat := b.cap - b.data.length

/-- `FallibleBufMut::try_put_slice` (src/util.rs): check remaining capacity,
then append the whole slice, or fail having written nothing. -/
def tryPutSlice (b : Buffer) (src : List Nat) : Buffer × Option WErr :=
  if b.remainingMut < src.length then (b, some WErr.space)
  else ({ b with data := b.data ++ src }, none)

/-- `FallibleBufMut::try_put_u8` (src/util.rs). -/
def tryPutU8 (b : Buffer) (n : Nat) : Buffer × Option WErr :=
  if b.remainingMut < 1 then (b, some WErr.space)
  else ({ b with data := b.data ++ [n] }, none)

/-- Rust's `?` operator over the mutated buffer: on error the partially
written buffer is kept and the error propagates. -/
def wseq (r : Buffer × Option WErr) (f : Buffer → Buffer × Option WErr) :
    Buffer × Option WErr :=
  match r with
  | (b, none) => f b
  | (b, some e) => (b, some e)

/-! ## Token validator (`is_token`, src/lib.rs lines 378-408) -/

/-- The 128-bit character-class mask of `is_token` in src/lib.rs, verbatim. -/
def tokenMASK : Nat := 0x57FFFFFFC7FFFFFE03FF2CFA00000000

/-- `MASKLO`: `MASK as u64`. -/
def tokenMASKLO : Nat := tokenMASK % 2 ^ 64

/-- `MASKHI`: `(MASK >> 64) as u64`. -/
def tokenMASKHI : Nat := (tokenMASK >>> 64) % 2 ^ 64

/-- `is_allowed` from `is_token` (src/lib.rs): bit test against the mask,
everything ≥ 128 rejected. -/
def is_allowed (byte : Nat) : Bool :=
  if byte ≤ 63 then (tokenMASKLO >>> byte) &&& 1 == 1
  else if byte ≤ 127 then (tokenMASKHI >>> (byte &&& 63)) &&& 1 == 1
  else false

/-- `is_token` (src/lib.rs): every byte allowed, and non-empty. -/
def is_token (token : List Nat) : Bool :=
  token.all is_allowed && !token.isEmpty

/-- Modelled from the spec: the sixteen special `tchar` characters
`! # $ % & ' * + - . ^ _ \x60 | ~` as byte values (the claim's own
enumeration lists these fifteen glyphs). -/
def specTcharSpecials : List Nat :=
  [33, 35, 36, 37, 38, 39, 42, 43, 45, 46, 94, 95, 96, 124, 126]

/-- Modelled from the spec: a byte is a `tchar` iff it is an ASCII digit,
letter, or one of `specTcharSpecials`. -/
def specIsTchar (b : Nat) : Bool :=
  (48 ≤ b && b ≤ 57) || (65 ≤ b && b ≤ 90) || (97 ≤ b && b ≤ 122) ||
    specTcharSpecials.contains b

/-- Modelled from the spec: `is_token` should be true iff non-empty and
every byte is a `tchar`. -/
def specIsToken (l : List Nat) : Bool :=
  !l.isEmpty && l.all specIsTchar

/-! ## URI validators (src/uri.rs, src/lib.rs `validate_uri`) -/

/-- `validate_uri` (src/lib.rs lines 411-421): sequential scan rejecting
space, CR and LF, then a non-emptiness check. -/
def validate_uri (uri : List Nat) : Bool :=
  uri.all (fun b => !(b == 32 || b == 13 || b == 10)) && !uri.isEmpty

/-- `memchr::memchr3`: index of the first occurrence of any of the three
needle bytes. -/
def memchr3 (a b c : Nat) (haystack : List Nat) : Option Nat :=
  haystack.findIdx? (fun x => x == a || x == b || x == c)

/-- The validated request-target wrapper (src/uri.rs). -/
structure Uri where
  uri : List Nat
deriving Repr, DecidableEq

/-- `Uri::try_new` (src/uri.rs lines 54-63): runtime path via `memchr3`. -/
def Uri.try_new (uri : List Nat) : Except Unit Uri :=
  if !uri.isEmpty && (memchr3 32 13 10 uri).isNone then .ok ⟨uri⟩
  else .error ()

/-- `Uri::try_new_const` (src/uri.rs lines 82-90): const path via
`validate_uri`. -/
def Uri.try_new_const (uri : List Nat) : Except Unit Uri :=
  if !validate_uri uri then .error () else .ok ⟨uri⟩

/-- `Uri::write_to` (src/uri.rs): the raw bytes. -/
def Uri.write_to (u : Uri) (b : Buffer) : Buffer × Option WErr :=
  tryPutSlice b u.uri

/-! ## `CheckedValue` validator (src/header.rs lines 129-165)

`check_valid_const` is translated with `memchr_const`'s sequential scan for
`\r` inlined into the loop (the `if value[prev] != 13 then continue` branch
below is `memchr_const` stepping; `idx` is the found index).  The body
reproduces the source *exactly*, including its indexing of `value[1]` and
`value[2]` (not `value[idx+1]`/`value[idx+2]`). -/

/-- The loop of `CheckedValue::check_valid_const` (src/header.rs), with the
`memchr_const` scan inlined.  `prev` is the scan start.  The loop advances
`prev` by at least one per iteration and stops once `prev ≥ value.length`,
so `value.length` iterations of fuel always suffice (the fuel-exhausted arm
is unreachable from `check_valid_const`); fuel keeps the recursion
structural. -/
def checkValidLoop (value : List Nat) : Nat → Nat → Bool
  | 0, _ => true
  | fuel + 1, prev =>
    if prev < value.length then
      if value.getD prev 0 ≠ 13 then
        -- memchr_const: this byte is not `\r`, keep scanning
        checkValidLoop value fuel (prev + 1)
      else
        -- memchr_const returned Some(idx) with idx = prev
        match value.length - prev with
        | 0 => true
        | 1 => true
        | 2 => if value.getD 1 0 == 10 then false else true
        | _ + 3 =>
          if value.getD 1 0 == 10 then
            if value.getD 2 0 == 32 || value.getD 2 0 == 9 then
              checkValidLoop value fuel (prev + 3)
            else false
          else checkValidLoop value fuel (prev + 1)
    else true

/-- `CheckedValue::check_valid_const` (src/header.rs lines 129-147). -/
def check_valid_const (value : List Nat) : Bool :=
  checkValidLoop value value.length 0

/-- `CheckedValue::try_new` (src/header.rs lines 92-98). -/
def CheckedValue.try_new (value : List Nat) : Except Unit (List Nat) :=
  if !check_valid_const value then .error () else .ok value

/-- Modelled from the spec: a value is valid iff every `\r\n` in it is
immediately followed by a space or tab byte. -/
def specValueValid : List Nat → Bool
  | 13 :: 10 :: rest =>
    match rest with
    | 32 :: _ => specValueValid rest
    | 9 :: _ => specValueValid rest
    | _ => false
  | _ :: rest => specValueValid rest
  | [] => true

/-! ## Status (src/status.rs) -/

/-- The entries of the `arraytable!` literal `REASON_PHRASES`
(src/status.rs lines 225-299), keyed by status code. -/
def phraseFor (code : Nat) : Option String :=
  match code with
  | 100 => some "Continue"
  | 101 => some "Switching Protocols"
  | 102 => some "Processing"
  | 103 => some "Early Hints"
  | 200 => some "OK"
  | 201 => some "Created"
  | 202 => some "Accepted"
  | 203 => some "Non-Authoritative Information"
  | 204 => some "No Content"
  | 205 => some "Reset Content"
  | 206 => some "Partial Content"
  | 207 => some "Multi-Status"
  | 208 => some "Already Reported"
  | 226 => some "IM Used"
  | 300 => some "Multiple Choices"
  | 301 => some "Moved Permanently"
  | 302 => some "Found"
  | 303 => some "See Other"
  | 304 => some "Not Modified"
  | 305 => some "Use Proxy"
  | 307 => some "Temporary Redirect"
  | 308 => some "Permanent Redirect"
  | 400 => some "Bad Request"
  | 401 => some "Unauthorized"
  | 402 => some "Payment Required"
  | 403 => some "Forbidden"
  | 404 => some "Not Found"
  | 405 => some "Method Not Allowed"
  | 406 => some "Not Acceptable"
  | 407 => some "Proxy Authentication Required"
  | 408 => some "Request Timeout"
  | 409 => some "Conflict"
  | 410 => some "Gone"
  | 411 => some "Length Required"
  | 412 => some "Precondition Failed"
  | 413 => some "Payload Too Large"
  | 414 => some "URI Too Long"
  | 415 => some "Unsupported Media Type"
  | 416 => some "Range Not Satisfiable"
  | 417 => some "Expectation Failed"
  | 418 => some "I'm a Teapot"
  | 421 => some "Misdirected Request"
  | 422 => some "Unprocessable Entity"
  | 423 => some "Locked"
  | 424 => some "Failed Dependency"
  | 425 => some "Too Early"
  | 426 => some "Upgrade Required"
  | 428 => some "Precondition Required"
  | 429 => some "Too Many Requests"
  | 431 => some "Request Header Fields Too Large"
  | 451 => some "Unavailable for Legal Reasons"
  | 500 => some "Internal Server Error"
  | 501 => some "Not Implemented"
  | 502 => some "Bad Gateway"
  | 503 => some "Service Unavailable"
  | 504 => some "Gateway Timeout"
  | 505 => some "HTTP Version Not Supported"
  | 506 => some "Variant Also Negotiates"
  | 507 => some "Insufficient Storage"
  | 508 => some "Loop Detected"
  | 510 => some "Not Extended"
  | 511 => some "Network Authentication Required"
  | _ => none

/-- `REASON_PHRASES` (src/status.rs): the `arraytable!` spans indices
100..=511, so the slice has `511 - 100 + 1 = 412` entries; entry `i`
holds the phrase for code `i + 100`. -/
def REASON_PHRASES : List (Option String) :=
  (List.range 412).map (fun i => phraseFor (i + 100))

/-- `Status::reason_phrase` (src/status.rs lines 64-73).  The Rust body
indexes `REASON_PHRASES[(code - 100) as usize]`, which panics when out of
bounds; the panic is modelled as `.error ()`. -/
def Status.reason_phrase (code : Nat) : Except Unit (Option String) :=
  if code ≤ 99 then .ok none
  else if REASON_PHRASES.length + 100 < code then .ok none
  else
    match REASON_PHRASES[code - 100]? with
    | some v => .ok v
    | none => .error ()

/-- `Status` (src/status.rs): code plus optional reason phrase. -/
structure Status where
  code : Nat
  reason : Option String
deriving Repr, DecidableEq

/-- `Status::new` (src/status.rs lines 26-31). -/
def Status.new (code : Nat) : Except Unit Status :=
  match Status.reason_phrase code with
  | .ok r => .ok ⟨code, r⟩
  | .error e => .error e

/-- `Status::reason` (src/status.rs lines 57-62): the phrase or `""`. -/
def Status.reasonStr (s : Status) : String :=
  match s.reason with
  | some reason => reason
  | none => ""

/-! ## The CRLF scanner and the `&[u8]` writer (src/writable.rs)

`UnquotedCRLFIterator` (src/writable.rs lines 50-88) repeatedly jumps, via
`memchr3`, to the next `\` / `"` / `\r` byte; other bytes are skipped.
`crlfScan s p q` collects every index the iterator yields, where `s` is the
not-yet-scanned suffix (`bytes[offset..]`), `p` the absolute offset and `q`
the `inquotes` flag.  The byte-by-byte walk below is `memchr3` stepping; the
four interesting arms are the iterator's `match`. -/

/-- The indices yielded by `UnquotedCRLFIterator` scanning suffix `s` at
absolute offset `p` with `inquotes = q`. -/
def crlfScan : List Nat → Nat → Bool → List Nat
  | [], _, _ => []
  -- `[b'\\', ..] => pos += 1` then advance: the escaped byte is skipped
  | 92 :: [], _, _ => []
  | 92 :: _ :: rest2, p, q => crlfScan rest2 (p + 2) q
  | 34 :: rest, p, q => crlfScan rest (p + 1) (!q)
  | 13 :: 10 :: rest2, p, q =>
    -- in quotes the iterator advances past the `\r` only; the `\n` is not
    -- a needle byte, so the next hop lands at `p + 2` either way
    if q then crlfScan rest2 (p + 2) q
    else p :: crlfScan rest2 (p + 2) q
  | 13 :: rest, p, q => crlfScan rest (p + 1) q
  | _ :: rest, p, q => crlfScan rest (p + 1) q

/-- The `for idx in find_unquoted_crlf(data)` loop of the `&[u8]`
`HttpWriteable::write_to` (src/writable.rs lines 154-177): `positions` is
the iterator's output, `prev` the copy watermark.  The `unreachable!()` arm
is modelled as a panic. -/
def goWrite (data : List Nat) : List Nat → Nat → Buffer → Buffer × Option WErr
  | [], prev, b => tryPutSlice b (data.drop prev)
  | idx :: rest, prev, b =>
    match data.drop idx with
    | 13 :: 10 :: 32 :: _ => goWrite data rest prev b
    | 13 :: 10 :: 9 :: _ => goWrite data rest prev b
    | 13 :: 10 :: _ =>
      wseq (tryPutSlice b ((data.take (idx + 2)).drop prev)) fun b1 =>
      wseq (tryPutU8 b1 9) fun b2 =>
      goWrite data rest (idx + 2) b2
    | _ => (b, some WErr.panicked)

/-- `impl HttpWriteable for &[u8]::write_to` (src/writable.rs lines
154-177). -/
def sliceWriteTo (data : List Nat) (b : Buffer) : Buffer × Option WErr :=
  goWrite data (crlfScan data 0 false) 0 b

/-- Modelled from the spec and claim wording (§4.3): copy the input, and
after each two-byte CRLF that occurs outside a quoted region (`q` tracks
the inside-quotes flag, toggled by unescaped `"`; `\` escapes the following
byte) and is not immediately followed by a space or tab, insert a single
tab byte; a CRLF followed by space/tab and a lone `\r` are left
untouched. -/
def specRewrite : List Nat → Bool → List Nat
  | [], _ => []
  | 92 :: [], _ => [92]
  | 92 :: c :: rest2, q => 92 :: c :: specRewrite rest2 q
  | 34 :: rest, q => 34 :: specRewrite rest (!q)
  | 13 :: 10 :: 32 :: tl, q =>
    if q then 13 :: 10 :: specRewrite (32 :: tl) q
    else 13 :: 10 :: 32 :: specRewrite tl q
  | 13 :: 10 :: 9 :: tl, q =>
    if q then 13 :: 10 :: specRewrite (9 :: tl) q
    else 13 :: 10 :: 9 :: specRewrite tl q
  | 13 :: 10 :: rest2, q =>
    if q then 13 :: 10 :: specRewrite rest2 q
    else 13 :: 10 :: 9 :: specRewrite rest2 q
  | 13 :: rest, q => 13 :: specRewrite rest q
  | b :: rest, q => b :: specRewrite rest q

/-- `true` iff the byte string contains no two-byte CRLF sequence. -/
def noCRLF : List Nat → Bool
  | [] => true
  | [_] => true
  | a :: b :: rest => !(a == 13 && b == 10) && noCRLF (b :: rest)

/-! ## Integer writers (src/writable.rs lines 90-152) -/

/-- The digit-extraction `while` loop of `writable_unsigned!` with explicit
fuel (the loop runs once per decimal digit, so fuel `v` always suffices for
value `v`; the fuel-exhausted arm is unreachable from `digitsLoop`): the
decimal digits of `value`, least significant first, as ASCII bytes. -/
def digitsLoopF : Nat → Nat → List Nat
  | _, 0 => []
  | 0, _ => []
  | fuel + 1, v => (48 + v % 10) :: digitsLoopF fuel (v / 10)

/-- The digit-extraction loop of `writable_unsigned!` at its natural fuel. -/
def digitsLoop (value : Nat) : List Nat :=
  digitsLoopF value value

/-- `writable_unsigned!`'s `write_to`: `0` is special-cased, otherwise the
extracted digits are reversed and written in one slice. -/
def unsignedWriteTo (value : Nat) (buffer : Buffer) : Buffer × Option WErr :=
  if value = 0 then tryPutU8 buffer 48
  else tryPutSlice buffer (digitsLoop value).reverse

/-- `writable_signed!`'s `write_to` for a signed integer of bit width `w`.
`(self % 2^w).toNat` is `*self as $uty`, the two's-complement cast; the
negation written after the `-` sign is the source's `!value + 1`
(`2^w - 1 - value + 1`) with wrapping arithmetic. -/
def signedWriteTo (w : Nat) (self : Int) (buffer : Buffer) :
    Buffer × Option WErr :=
  if self < 0 then
    wseq (tryPutU8 buffer 45) fun b =>
      unsignedWriteTo ((2 ^ w - 1 - (self % (2 ^ w : Int)).toNat + 1) % 2 ^ w) b
  else unsignedWriteTo (self % (2 ^ w : Int)).toNat buffer

/-- The bytes `unsignedWriteTo value` appends (its pure denotation). -/
def encodeNat (value : Nat) : List Nat :=
  if value = 0 then [48] else (digitsLoop value).reverse

/-- The bytes `signedWriteTo w self` appends (its pure denotation). -/
def encodeIntW (w : Nat) (self : Int) : List Nat :=
  if self < 0 then
    45 :: encodeNat ((2 ^ w - 1 - (self % (2 ^ w : Int)).toNat + 1) % 2 ^ w)
  else encodeNat (self % (2 ^ w : Int)).toNat

/-- Modelled from the claim: read back a decimal ASCII integer (optional
leading minus sign, then digit bytes). -/
def readDigits (l : List Nat) : Option Nat :=
  if l.isEmpty then none
  else if l.all (fun b => 48 ≤ b && b ≤ 57) then
    some (l.foldl (fun acc b => acc * 10 + (b - 48)) 0)
  else none

/-- Modelled from the claim: parse `-?[0-9]+` back to an integer. -/
def readDecimal (l : List Nat) : Option Int :=
  match l with
  | 45 :: rest => (readDigits rest).map (fun n => -(n : Int))
  | _ => (readDigits l).map (fun n => (n : Int))

/-! ## Header values and headers (src/header.rs, src/writable.rs) -/

/-- The `HttpWriteable` value types a header can carry (the claims cover
byte slices, strings, `CheckedValue` and the integer widths; `&str` and
`CheckedValue` carry their byte contents). -/
inductive HValue where
  | bytes (l : List Nat)
  | str (l : List Nat)
  | checked (l : List Nat)
  | unsigned (n : Nat)
  | signed (w : Nat) (i : Int)
deriving Repr, DecidableEq

/-- Dispatch of `HttpWriteable::write_to`: `&str` delegates to `&[u8]`
(src/writable.rs lines 179-187); `CheckedValue` is written verbatim
(src/header.rs lines 168-175). -/
def HValue.writeTo : HValue → Buffer → Buffer × Option WErr
  | .bytes l, b => sliceWriteTo l b
  | .str l, b => sliceWriteTo l b
  | .checked l, b => tryPutSlice b l
  | .unsigned n, b => unsignedWriteTo n b
  | .signed w i, b => signedWriteTo w i b

/-- The pure denotation of each writer's output. -/
def HValue.encode : HValue → List Nat
  | .bytes l => specRewrite l false
  | .str l => specRewrite l false
  | .checked l => l
  | .unsigned n => encodeNat n
  | .signed w i => encodeIntW w i

/-- A header: validated field name plus value (src/header.rs lines
188-192). -/
structure Header where
  field : List Nat
  value : HValue
deriving Repr, DecidableEq

/-- `Header::write_to` (src/header.rs lines 237-245): field name, `": "`,
the value's encoding, CRLF. -/
def Header.write_to (h : Header) (buf : Buffer) : Buffer × Option WErr :=
  wseq (tryPutSlice buf h.field) fun b1 =>
  wseq (tryPutSlice b1 [58, 32]) fun b2 =>
  wseq (h.value.writeTo b2) fun b3 =>
  tryPutSlice b3 [13, 10]

/-- The wire bytes of one header. -/
def encodeHeader (h : Header) : List Nat :=
  h.field ++ [58, 32] ++ h.value.encode ++ [13, 10]

/-! ## Method, Version, builder (src/method.rs, src/version.rs,
src/lib.rs) -/

/-- `Method` (src/method.rs). -/
structure Method where
  method : List Nat
deriving Repr, DecidableEq

/-- `Method::write_to` (src/method.rs lines 16-21). -/
def Method.write_to (m : Method) (b : Buffer) : Buffer × Option WErr :=
  tryPutSlice b m.method

/-- `Method::try_new` (src/method.rs lines 52-58). -/
def Method.try_new (method : List Nat) : Except Unit Method :=
  if !is_token method then .error () else .ok ⟨method⟩

/-- `Method::GET`: the validated constant `Self::new("GET")`. -/
def Method.GET : Method := ⟨[71, 69, 84]⟩

/-- `Version` (src/version.rs): protocol name plus major/minor. -/
structure Version where
  proto : List Nat
  major : Nat
  minor : Nat
deriving Repr, DecidableEq

/-- `Version::write_to` (src/version.rs lines 22-31): proto, `/`, major,
`.`, minor, with the integer components through the `u8` writer. -/
def Version.write_to (v : Version) (b : Buffer) : Buffer × Option WErr :=
  wseq (tryPutSlice b v.proto) fun b1 =>
  wseq (tryPutU8 b1 47) fun b2 =>
  wseq (unsignedWriteTo v.major b2) fun b3 =>
  wseq (tryPutU8 b3 46) fun b4 =>
  unsignedWriteTo v.minor b4

/-- `Version::HTTP_1_1` (`"HTTP"` is bytes 72,84,84,80). -/
def Version.HTTP_1_1 : Version := ⟨[72, 84, 84, 80], 1, 1⟩

/-- `HttpBuilder::request` (src/lib.rs lines 242-256): method, SP, target,
SP, version, CRLF.  The builder just owns the buffer, so the buffer stands
for the builder state. -/
def HttpBuilder.request (buffer : Buffer) (method : Method) (target : Uri)
    (version : Version) : Buffer × Option WErr :=
  wseq (method.write_to buffer) fun b1 =>
  wseq (tryPutU8 b1 32) fun b2 =>
  wseq (target.write_to b2) fun b3 =>
  wseq (tryPutU8 b3 32) fun b4 =>
  wseq (version.write_to b4) fun b5 =>
  tryPutSlice b5 [13, 10]

/-- Repeated `HttpBuilder::header` calls (src/lib.rs lines 324-330), in the
order supplied. -/
def HttpBuilder.headerFold : List Header → Buffer → Buffer × Option WErr
  | [], b => (b, none)
  | h :: t, b => wseq (h.write_to b) (HttpBuilder.headerFold t)

/-- `HttpBuilder::finish` (src/lib.rs lines 337-340): the terminating blank
line. -/
def HttpBuilder.finish (b : Buffer) : Buffer × Option WErr :=
  tryPutSlice b [13, 10]

/-! # Lemmas

First the buffer primitives, then list bookkeeping for the scanner proof. -/

theorem tryPutSlice_fits (b : Buffer) (s : List Nat)
    (h : b.data.length + s.length ≤ b.cap) :
    tryPutSlice b s = (⟨b.data ++ s, b.cap⟩, none) := by
  simp only [tryPutSlice, Buffer.remainingMut]
  rw [if_neg (by omega)]

theorem tryPutSlice_no_fit (b : Buffer) (s : List Nat)
    (hinv : b.data.length ≤ b.cap) (h : b.cap < b.data.length + s.length) :
    tryPutSlice b s = (b, some WErr.space) := by
  simp only [tryPutSlice, Buffer.remainingMut]
  rw [if_pos (by omega)]

theorem tryPutU8_fits (b : Buffer) (n : Nat)
    (h : b.data.length + 1 ≤ b.cap) :
    tryPutU8 b n = (⟨b.data ++ [n], b.cap⟩, none) := by
  simp only [tryPutU8, Buffer.remainingMut]
  rw [if_neg (by omega)]

theorem tryPutU8_no_fit (b : Buffer) (n : Nat)
    (hinv : b.data.length ≤ b.cap) (h : b.cap < b.data.length + 1) :
    tryPutU8 b n = (b, some WErr.space) := by
  simp only [tryPutU8, Buffer.remainingMut]
  rw [if_pos (by omega)]

theorem wseq_none (b : Buffer) (f : Buffer → Buffer × Option WErr) :
    wseq (b, none) f = f b := rfl

theorem wseq_some (b : Buffer) (e : WErr) (f : Buffer → Buffer × Option WErr) :
    wseq (b, some e) f = (b, some e) := rfl

theorem take_add_split (l : List Nat) (m k : Nat) :
    l.take (m + k) = l.take m ++ (l.drop m).take k := by
  induction m generalizing l with
  | zero => simp
  | succ n ih =>
    cases l with
    | nil => simp
    | cons a t =>
      rw [Nat.succ_add, List.take_succ_cons, List.take_succ_cons,
        List.drop_succ_cons, ih, List.cons_append]

theorem extract_step (data : List Nat) (prev p k : Nat) (h : prev ≤ p) :
    (data.drop prev).take (p + k - prev)
      = (data.drop prev).take (p - prev) ++ (data.drop p).take k := by
  have e2 : data.drop p = (data.drop prev).drop (p - prev) := by
    rw [List.drop_drop]
    congr 1
    omega
  rw [show p + k - prev = (p - prev) + k by omega, take_add_split, e2]

theorem drop_decompose (data : List Nat) (prev p : Nat) (h : prev ≤ p) :
    data.drop prev = (data.drop prev).take (p - prev) ++ data.drop p := by
  have e : data.drop p = (data.drop prev).drop (p - prev) := by
    rw [List.drop_drop]
    congr 1
    omega
  rw [e, List.take_append_drop]

/-- The statement proved about `goWrite` over `crlfScan`, at suffix `s = []`:
all that remains is copying `data[prev..]`. -/
theorem goWrite_base (data : List Nat) (p : Nat) (q : Bool) :
    ∀ (prev : Nat) (b : Buffer),
      data.drop p = [] → prev ≤ p → p ≤ data.length →
      b.data.length ≤ b.cap →
      ((b.data.length + (p - prev) + (specRewrite [] q).length ≤ b.cap →
          goWrite data (crlfScan [] p q) prev b
            = (⟨b.data ++ (data.drop prev).take (p - prev) ++ specRewrite [] q,
                b.cap⟩, none))
        ∧ (b.cap < b.data.length + (p - prev) + (specRewrite [] q).length →
          (goWrite data (crlfScan [] p q) prev b).2 = some WErr.space)) := by
  intro prev b hdrop hpp hpl hinv
  have hplen : data.length ≤ p := by
    have h1 := congrArg List.length hdrop
    simp only [List.length_drop, List.length_nil] at h1
    omega
  have hlen2 : (data.drop prev).length = data.length - prev := by
    simp
  have hspeclen : (specRewrite [] q).length = 0 := by
    simp [specRewrite]
  have hex : (data.drop prev).take (p - prev) = data.drop prev := by
    apply List.take_of_length_le
    omega
  constructor
  · intro hcap
    simp only [crlfScan, goWrite, specRewrite]
    rw [tryPutSlice_fits b _ (by omega), hex]
    simp
  · intro hcap
    simp only [crlfScan, goWrite]
    rw [tryPutSlice_no_fit b _ hinv (by omega)]

/-- One scanner step that consumes `k` bytes verbatim: if scanning and
rewriting both reduce to the state at `p + k`, the statement transfers. -/
theorem advance_lemma (data : List Nat) (p k : Nat) (q q2 : Bool)
    (s rest : List Nat)
    (hdrop : data.drop p = s)
    (hrest : s.drop k = rest) (hk : k ≤ s.length)
    (hpl : p ≤ data.length)
    (hgo : ∀ (prev : Nat) (b : Buffer),
      goWrite data (crlfScan s p q) prev b
        = goWrite data (crlfScan rest (p + k) q2) prev b)
    (hspec : specRewrite s q = s.take k ++ specRewrite rest q2)
    (IH : ∀ (prev : Nat) (b : Buffer),
      data.drop (p + k) = rest → prev ≤ p + k → p + k ≤ data.length →
      b.data.length ≤ b.cap →
      ((b.data.length + (p + k - prev) + (specRewrite rest q2).length ≤ b.cap →
          goWrite data (crlfScan rest (p + k) q2) prev b
            = (⟨b.data ++ (data.drop prev).take (p + k - prev)
                ++ specRewrite rest q2, b.cap⟩, none))
        ∧ (b.cap < b.data.length + (p + k - prev)
              + (specRewrite rest q2).length →
          (goWrite data (crlfScan rest (p + k) q2) prev b).2
            = some WErr.space))) :
    ∀ (prev : Nat) (b : Buffer), prev ≤ p → b.data.length ≤ b.cap →
      ((b.data.length + (p - prev) + (specRewrite s q).length ≤ b.cap →
          goWrite data (crlfScan s p q) prev b
            = (⟨b.data ++ (data.drop prev).take (p - prev) ++ specRewrite s q,
                b.cap⟩, none))
        ∧ (b.cap < b.data.length + (p - prev) + (specRewrite s q).length →
          (goWrite data (crlfScan s p q) prev b).2 = some WErr.space)) := by
  intro prev b hpp hinv
  have hslen : s.length = data.length - p := by
    rw [← hdrop]
    simp
  have hpk : p + k ≤ data.length := by omega
  have hdropk : data.drop (p + k) = rest := by
    rw [← hrest, ← hdrop, List.drop_drop]
  have htklen : (s.take k).length = k := by
    simp only [List.length_take]
    omega
  have hsplen : (specRewrite s q).length = k + (specRewrite rest q2).length := by
    rw [hspec]
    simp [htklen]
  have hext : (data.drop prev).take (p + k - prev)
      = (data.drop prev).take (p - prev) ++ s.take k := by
    rw [extract_step data prev p k hpp, hdrop]
  obtain ⟨ih1, ih2⟩ := IH prev b hdropk (by omega) hpk hinv
  constructor
  · intro hcap
    rw [hgo prev b, ih1 (by omega), hext, hspec]
    simp [List.append_assoc]
  · intro hcap
    rw [hgo prev b]
    exact ih2 (by omega)

/-- The in-quotes CRLF step of `specRewrite` copies the two bytes verbatim,
whatever follows them. -/
theorem specRewrite_crlf_inquotes (rest2 : List Nat) :
    specRewrite (13 :: 10 :: rest2) true = 13 :: 10 :: specRewrite rest2 true := by
  rcases rest2 with _ | ⟨c, tl⟩
  · simp [specRewrite]
  · by_cases h32 : c = 32
    · subst h32
      simp [specRewrite]
    · by_cases h9 : c = 9
      · subst h9
        simp [specRewrite]
      · simp [specRewrite, h32, h9]

/-- The scanner step that emits a fold position: `goWrite` copies
`data[prev..p+2]`, injects the tab, and continues at `p + 2`. -/
theorem fold_lemma (data : List Nat) (p : Nat) (rest2 : List Nat)
    (hdrop : data.drop p = 13 :: 10 :: rest2)
    (hpl : p ≤ data.length)
    (hgo : ∀ (prev : Nat) (b : Buffer),
      goWrite data (crlfScan (13 :: 10 :: rest2) p false) prev b
        = wseq (tryPutSlice b ((data.take (p + 2)).drop prev)) fun b1 =>
          wseq (tryPutU8 b1 9) fun b2 =>
          goWrite data (crlfScan rest2 (p + 2) false) (p + 2) b2)
    (hspec : specRewrite (13 :: 10 :: rest2) false
        = 13 :: 10 :: 9 :: specRewrite rest2 false)
    (IH : ∀ (prev : Nat) (b : Buffer),
      data.drop (p + 2) = rest2 → prev ≤ p + 2 → p + 2 ≤ data.length →
      b.data.length ≤ b.cap →
      ((b.data.length + (p + 2 - prev)
            + (specRewrite rest2 false).length ≤ b.cap →
          goWrite data (crlfScan rest2 (p + 2) false) prev b
            = (⟨b.data ++ (data.drop prev).take (p + 2 - prev)
                ++ specRewrite rest2 false, b.cap⟩, none))
        ∧ (b.cap < b.data.length + (p + 2 - prev)
              + (specRewrite rest2 false).length →
          (goWrite data (crlfScan rest2 (p + 2) false) prev b).2
            = some WErr.space))) :
    ∀ (prev : Nat) (b : Buffer), prev ≤ p → b.data.length ≤ b.cap →
      ((b.data.length + (p - prev)
            + (specRewrite (13 :: 10 :: rest2) false).length ≤ b.cap →
          goWrite data (crlfScan (13 :: 10 :: rest2) p false) prev b
            = (⟨b.data ++ (data.drop prev).take (p - prev)
                ++ specRewrite (13 :: 10 :: rest2) false, b.cap⟩, none))
        ∧ (b.cap < b.data.length + (p - prev)
              + (specRewrite (13 :: 10 :: rest2) false).length →
          (goWrite data (crlfScan (13 :: 10 :: rest2) p false) prev b).2
            = some WErr.space)) := by
  intro prev b hpp hinv
  have hslen : data.length - p = rest2.length + 2 := by
    have h1 := congrArg List.length hdrop
    simp only [List.length_drop, List.length_cons] at h1
    omega
  have hpk : p + 2 ≤ data.length := by omega
  have hdropk : data.drop (p + 2) = rest2 := by
    have h2 : data.drop (p + 2) = (data.drop p).drop 2 := by
      rw [List.drop_drop]
    rw [h2, hdrop]
    rfl
  have hseg : (data.take (p + 2)).drop prev
      = (data.drop prev).take (p + 2 - prev) := by
    have h3 := List.take_drop prev (p + 2 - prev) data
    rw [show prev + (p + 2 - prev) = p + 2 by omega] at h3
    exact h3.symm
  have hext : (data.drop prev).take (p + 2 - prev)
      = (data.drop prev).take (p - prev) ++ [13, 10] := by
    rw [extract_step data prev p 2 hpp, hdrop]
    rfl
  have hextlen : ((data.drop prev).take (p - prev)).length = p - prev := by
    simp only [List.length_take, List.length_drop]
    omega
  have hseglen : ((data.drop prev).take (p + 2 - prev)).length
      = p + 2 - prev := by
    simp only [List.length_take, List.length_drop]
    omega
  have hsl : (specRewrite (13 :: 10 :: rest2) false).length
      = 3 + (specRewrite rest2 false).length := by
    rw [hspec]
    simp only [List.length_cons]
    omega
  constructor
  · intro hcap
    rw [hgo prev b, hseg, tryPutSlice_fits b _ (by omega)]
    simp only [wseq]
    rw [tryPutU8_fits _ 9 (by simp [List.length_append]; omega)]
    simp only [wseq]
    obtain ⟨ih1, _⟩ := IH (p + 2)
      ⟨b.data ++ (data.drop prev).take (p + 2 - prev) ++ [9], b.cap⟩
      hdropk (by omega) hpk
      (by simp [List.length_append]; omega)
    rw [ih1 (by simp [List.length_append]; omega)]
    rw [hext, hspec, hdropk]
    simp [List.append_assoc]
  · intro hcap
    rw [hgo prev b, hseg]
    by_cases h1 : b.data.length + (p + 2 - prev) ≤ b.cap
    · rw [tryPutSlice_fits b _ (by omega)]
      simp only [wseq]
      by_cases h2 : b.data.length + (p + 2 - prev) + 1 ≤ b.cap
      · rw [tryPutU8_fits _ 9 (by simp [List.length_append]; omega)]
        simp only [wseq]
        obtain ⟨_, ih2⟩ := IH (p + 2)
          ⟨b.data ++ (data.drop prev).take (p + 2 - prev) ++ [9], b.cap⟩
          hdropk (by omega) hpk
          (by simp [List.length_append]; omega)
        exact ih2 (by simp [List.length_append]; omega)
      · rw [tryPutU8_no_fit _ 9 (by simp [List.length_append]; omega)
          (by simp [List.length_append]; omega)]
    · rw [tryPutSlice_no_fit b _ hinv (by omega)]
      rfl

/-- Main scanner/rewriter refinement: running the source's position-based
`goWrite` loop over the `UnquotedCRLFIterator` positions appends exactly
the claim-level rewrite of the remaining suffix (and reports
`InsufficientSpaceError` when it cannot fit). -/
theorem goWrite_crlfScan (data s : List Nat) (p : Nat) (q : Bool) :
    ∀ (prev : Nat) (b : Buffer),
      data.drop p = s → prev ≤ p → p ≤ data.length →
      b.data.length ≤ b.cap →
      ((b.data.length + (p - prev) + (specRewrite s q).length ≤ b.cap →
          goWrite data (crlfScan s p q) prev b
            = (⟨b.data ++ (data.drop prev).take (p - prev) ++ specRewrite s q,
                b.cap⟩, none))
        ∧ (b.cap < b.data.length + (p - prev) + (specRewrite s q).length →
          (goWrite data (crlfScan s p q) prev b).2 = some WErr.space)) := by
  induction s, p, q using crlfScan.induct with
  | case1 p q => exact goWrite_base data p q
  | case2 p q =>
    intro prev b hdrop hpp hpl hinv
    exact advance_lemma data p 1 q q [92] [] hdrop (by simp) (by simp) hpl
      (fun prev' b' => by simp only [crlfScan])
      (by simp [specRewrite])
      (fun prev' b' h1 h2 h3 h4 => goWrite_base data (p + 1) q prev' b' h1 h2 h3 h4)
      prev b hpp hinv
  | case3 head rest2 p q ih =>
    intro prev b hdrop hpp hpl hinv
    exact advance_lemma data p 2 q q (92 :: head :: rest2) rest2 hdrop
      (by simp) (by simp) hpl
      (fun prev' b' => by simp only [crlfScan])
      (by simp [specRewrite])
      ih prev b hpp hinv
  | case4 rest p q ih =>
    intro prev b hdrop hpp hpl hinv
    exact advance_lemma data p 1 q (!q) (34 :: rest) rest hdrop
      (by simp) (by simp) hpl
      (fun prev' b' => by simp only [crlfScan])
      (by simp [specRewrite])
      ih prev b hpp hinv
  | case5 rest2 p ih =>
    intro prev b hdrop hpp hpl hinv
    exact advance_lemma data p 2 true true (13 :: 10 :: rest2) rest2 hdrop
      (by simp) (by simp) hpl
      (fun prev' b' => by simp only [crlfScan, if_true])
      (by rw [specRewrite_crlf_inquotes]; rfl)
      ih prev b hpp hinv
  | case6 rest2 p q hq ih =>
    have hq2 : q = false := by
      cases q
      · rfl
      · exact absurd rfl hq
    subst hq2
    intro prev b hdrop hpp hpl hinv
    rcases rest2 with _ | ⟨c, tl⟩
    · -- bare CRLF at the end of the data
      exact fold_lemma data p [] hdrop hpl
        (fun prev' b' => by simp [crlfScan, goWrite, hdrop])
        (by simp [specRewrite])
        ih prev b hpp hinv
    · by_cases h32 : c = 32
      · subst h32
        exact advance_lemma data p 2 false false (13 :: 10 :: 32 :: tl)
          (32 :: tl) hdrop (by simp) (by simp) hpl
          (fun prev' b' => by simp [crlfScan, goWrite, hdrop])
          (by simp [specRewrite])
          ih prev b hpp hinv
      · by_cases h9 : c = 9
        · subst h9
          exact advance_lemma data p 2 false false (13 :: 10 :: 9 :: tl)
            (9 :: tl) hdrop (by simp) (by simp) hpl
            (fun prev' b' => by simp [crlfScan, goWrite, hdrop])
            (by simp [specRewrite])
            ih prev b hpp hinv
        · exact fold_lemma data p (c :: tl) hdrop hpl
            (fun prev' b' => by simp [crlfScan, goWrite, hdrop, h32, h9])
            (by simp [specRewrite, h32, h9])
            ih prev b hpp hinv
  | case7 rest p q hne ih =>
    intro prev b hdrop hpp hpl hinv
    have hcs : crlfScan (13 :: rest) p q = crlfScan rest (p + 1) q := by
      rcases rest with _ | ⟨c, tl⟩
      · simp [crlfScan]
      · have hc : ¬c = 10 := fun h => hne tl (by rw [h])
        simp [crlfScan, hc]
    have hsp : specRewrite (13 :: rest) q
        = (13 :: rest).take 1 ++ specRewrite rest q := by
      rcases rest with _ | ⟨c, tl⟩
      · simp [specRewrite]
      · have hc : ¬c = 10 := fun h => hne tl (by rw [h])
        simp [specRewrite, hc]
    exact advance_lemma data p 1 q q (13 :: rest) rest hdrop
      (by simp) (by simp) hpl
      (fun prev' b' => by rw [hcs]) hsp ih prev b hpp hinv
  | case8 head rest p q h1 h2 h3 h4 h5 ih =>
    intro prev b hdrop hpp hpl hinv
    have hn92 : ¬head = 92 := by
      intro h
      rcases rest with _ | ⟨c, tl⟩
      · exact h1 h rfl
      · exact h2 c tl h rfl
    have hcs : crlfScan (head :: rest) p q = crlfScan rest (p + 1) q := by
      rw [crlfScan.eq_7] <;> intros <;> simp_all
    have hsp : specRewrite (head :: rest) q
        = (head :: rest).take 1 ++ specRewrite rest q := by
      rw [List.take_succ_cons, List.take_zero, List.cons_append,
        List.nil_append, specRewrite.eq_9] <;> intros <;> simp_all
    exact advance_lemma data p 1 q q (head :: rest) rest hdrop
      (by simp) (by simp) hpl
      (fun prev' b' => by rw [hcs]) hsp ih prev b hpp hinv

/-- `noCRLF` of a tail. -/
theorem noCRLF_tail (x : Nat) (l : List Nat) (h : noCRLF (x :: l) = true) :
    noCRLF l = true := by
  cases l with
  | nil => rfl
  | cons y t =>
    simp only [noCRLF, Bool.and_eq_true] at h
    exact h.2

/-- A byte string without CRLF is left unchanged by the rewrite. -/
theorem specRewrite_noCRLF (l : List Nat) (q : Bool) :
    noCRLF l = true → specRewrite l q = l := by
  induction l, q using specRewrite.induct with
  | case1 x => intro _; rfl
  | case2 x => intro _; rfl
  | case3 c rest2 q ih =>
    intro h
    simp only [specRewrite]
    rw [ih (noCRLF_tail c _ (noCRLF_tail 92 _ h))]
  | case4 rest q ih =>
    intro h
    simp only [specRewrite]
    rw [ih (noCRLF_tail 34 _ h)]
  | case5 tl ih => intro h; simp [noCRLF] at h
  | case6 tl q hq ih => intro h; simp [noCRLF] at h
  | case7 tl ih => intro h; simp [noCRLF] at h
  | case8 tl q hq ih => intro h; simp [noCRLF] at h
  | case9 rest2 h32 h9 ih => intro h; simp [noCRLF] at h
  | case10 rest2 q h32 h9 hq ih => intro h; simp [noCRLF] at h
  | case11 rest q h1 h2 h3 ih =>
    intro h
    have hrw : specRewrite (13 :: rest) q = 13 :: specRewrite rest q := by
      rcases rest with _ | ⟨c, tl⟩
      · rfl
      · have hc : ¬c = 10 := fun hcc => h3 tl (by rw [hcc])
        rw [specRewrite.eq_8] <;> intros <;> simp_all
    rw [hrw, ih (noCRLF_tail 13 _ h)]
  | case12 b rest q h1 h2 h3 h4 h5 h6 h7 ih =>
    intro h
    have hrw : specRewrite (b :: rest) q = b :: specRewrite rest q := by
      rw [specRewrite.eq_9] <;> intros <;> simp_all
    rw [hrw, ih (noCRLF_tail b _ h)]

/-- The success/failure behaviour of the `&[u8]` writer, via the scanner
refinement at the initial state. -/
theorem sliceWriteTo_spec (data : List Nat) (b : Buffer)
    (hinv : b.data.length ≤ b.cap) :
    (b.data.length + (specRewrite data false).length ≤ b.cap →
      sliceWriteTo data b = (⟨b.data ++ specRewrite data false, b.cap⟩, none))
    ∧ (b.cap < b.data.length + (specRewrite data false).length →
      (sliceWriteTo data b).2 = some WErr.space) := by
  have h := goWrite_crlfScan data data 0 false 0 b (by simp) (Nat.le_refl 0)
    (by simp) hinv
  constructor
  · intro hcap
    have h1 := h.1 (by simpa using hcap)
    simpa [sliceWriteTo] using h1
  · intro hcap
    have h2 := h.2 (by simpa using hcap)
    simpa [sliceWriteTo] using h2

/-- Claim C1: for every byte slice written as an untrusted value through the
`&[u8]` `HttpWriteable` implementation, `write_to` emits exactly the input
bytes except that a single tab is inserted after each two-byte CRLF that is
outside a quoted region and not followed by space or tab (`specRewrite`
states exactly this rewrite, CRLF-followed-by-whitespace and lone `\r` left
untouched); a slice without CRLF is reproduced unchanged. -/
theorem c1_slice_write_rewrites_bare_crlf :
    ∀ (data : List Nat) (b : Buffer),
      (b.data.length ≤ b.cap →
        b.data.length + (specRewrite data false).length ≤ b.cap →
        sliceWriteTo data b
          = (⟨b.data ++ specRewrite data false, b.cap⟩, none))
      ∧ (noCRLF data = true → specRewrite data false = data) := by
  intro data b
  constructor
  · intro hinv hcap
    exact (sliceWriteTo_spec data b hinv).1 hcap
  · intro h
    exact specRewrite_noCRLF data false h

/-- Witness for C1: a bare CRLF gets a tab inserted, and a CRLF-free slice
round-trips unchanged. -/
theorem c1_witness :
    sliceWriteTo [108, 13, 10, 108] ⟨[], 10⟩
      = (⟨[108, 13, 10, 9, 108], 10⟩, none)
    ∧ specRewrite [104, 105] false = [104, 105] := by
  constructor
  · have h := (c1_slice_write_rewrites_bare_crlf [108, 13, 10, 108]
      ⟨[], 10⟩).1 (by decide) (by decide)
    rw [h]
    rfl
  · exact (c1_slice_write_rewrites_bare_crlf [104, 105] ⟨[], 0⟩).2 (by decide)

/-- In a quoted region with no further quote or backslash byte, the scanner
yields no position at all. -/
theorem crlfScan_inquotes_nil :
    ∀ (s : List Nat) (p : Nat) (q : Bool), q = true →
      (∀ x ∈ s, x ≠ 34 ∧ x ≠ 92) → crlfScan s p q = [] := by
  intro s p q
  induction s, p, q using crlfScan.induct with
  | case1 p q => intro _ _; rfl
  | case2 p q => intro _ h; exact absurd rfl (h 92 (by simp)).2
  | case3 head rest2 p q ih => intro _ h; exact absurd rfl (h 92 (by simp)).2
  | case4 rest p q ih => intro _ h; exact absurd rfl (h 34 (by simp)).1
  | case5 rest2 p ih =>
    intro _ h
    simp only [crlfScan, if_true]
    exact ih rfl (fun x hx => h x (by simp [hx]))
  | case6 rest2 p q hq ih =>
    intro hq2 _
    exact absurd hq2 hq
  | case7 rest p q hne ih =>
    intro hq h
    have hcs : crlfScan (13 :: rest) p q = crlfScan rest (p + 1) q := by
      rcases rest with _ | ⟨c, tl⟩
      · rfl
      · have hc : ¬c = 10 := fun hcc => hne tl (by rw [hcc])
        rw [crlfScan.eq_6] <;> intros <;> simp_all
    rw [hcs]
    exact ih hq (fun x hx => h x (by simp [hx]))
  | case8 head rest p q h1 h2 h3 h4 h5 ih =>
    intro hq h
    have hcs : crlfScan (head :: rest) p q = crlfScan rest (p + 1) q := by
      rw [crlfScan.eq_7] <;> intros <;> simp_all
    rw [hcs]
    exact ih hq (fun x hx => h x (by simp [hx]))

/-- Claim C5 counterexample: for the slice `"\x22\r\na\x22"` the bare CRLF
sits inside a quoted region, yet `write_to` copies the slice verbatim and
inserts no tab anywhere — refuting the claim that the fold tab is still
inserted there. -/
theorem c5_counterexample_quoted_crlf_not_folded :
    sliceWriteTo [34, 13, 10, 97, 34] ⟨[], 10⟩
      = (⟨[34, 13, 10, 97, 34], 10⟩, none)
    ∧ (sliceWriteTo [34, 13, 10, 97, 34] ⟨[], 10⟩).1.data.count 9 = 0 := by
  decide

/-- Claim C5 amended: a bare CRLF that occurs inside a quoted region is NOT
folded — after an unmatched opening quote (no further quote or backslash
byte), `write_to` copies everything verbatim and inserts no tab. -/
theorem c5_amended_quoted_crlf_untouched :
    ∀ (s : List Nat) (cap : Nat),
      (∀ x ∈ s, x ≠ 34 ∧ x ≠ 92) →
      s.length + 1 ≤ cap →
      sliceWriteTo (34 :: s) ⟨[], cap⟩ = (⟨34 :: s, cap⟩, none) := by
  intro s cap h hcap
  have h1 : crlfScan (34 :: s) 0 false = [] := by
    have h0 : crlfScan (34 :: s) 0 false = crlfScan s 1 (!false) := rfl
    rw [h0]
    exact crlfScan_inquotes_nil s 1 true rfl h
  simp only [sliceWriteTo, h1, goWrite]
  rw [tryPutSlice_fits ⟨[], cap⟩ _ (by simp; omega)]
  simp

/-- Witness for the amended C5 at a concrete quoted bare CRLF. -/
theorem c5_amended_witness :
    sliceWriteTo [34, 13, 10, 97] ⟨[], 10⟩ = (⟨[34, 13, 10, 97], 10⟩, none) :=
  c5_amended_quoted_crlf_untouched [13, 10, 97] 10 (by decide) (by decide)

/-! ## Decimal digit lemmas -/

/-- Every byte produced by the digit loop is an ASCII digit. -/
theorem digitsLoopF_digits :
    ∀ (fuel v : Nat), ∀ d ∈ digitsLoopF fuel v, 48 ≤ d ∧ d ≤ 57 := by
  intro fuel
  induction fuel with
  | zero =>
    intro v d hd
    cases v <;> simp [digitsLoopF] at hd
  | succ n ih =>
    intro v d hd
    cases v with
    | zero => simp [digitsLoopF] at hd
    | succ k =>
      simp only [digitsLoopF] at hd
      rcases List.mem_cons.mp hd with h | h
      · subst h
        have := Nat.mod_lt (k + 1) (show 0 < 10 by omega)
        omega
      · exact ih _ d h

/-- Folding the digits back (most significant first) reconstructs the
value. -/
theorem digitsLoopF_foldr :
    ∀ (fuel v : Nat), v ≤ fuel → ∀ a : Nat,
      (digitsLoopF fuel v).foldr (fun b acc => acc * 10 + (b - 48)) a
        = a * 10 ^ (digitsLoopF fuel v).length + v := by
  intro fuel
  induction fuel with
  | zero =>
    intro v hv a
    have hv0 : v = 0 := by omega
    subst hv0
    simp [digitsLoopF]
  | succ n ih =>
    intro v hv a
    cases v with
    | zero => simp [digitsLoopF]
    | succ k =>
      have hdiv : (k + 1) / 10 < k + 1 :=
        Nat.div_lt_self (by omega) (by omega)
      simp only [digitsLoopF, List.foldr_cons, List.length_cons]
      rw [ih ((k + 1) / 10) (by omega) a]
      have hsub : 48 + (k + 1) % 10 - 48 = (k + 1) % 10 := by omega
      rw [hsub, pow_succ, Nat.add_mul, ← Nat.mul_assoc]
      omega

/-- The digit loop of a non-zero value is non-empty (with fuel left). -/
theorem digitsLoopF_ne_nil (fuel v : Nat) (hv : v ≠ 0) (hf : fuel ≠ 0) :
    digitsLoopF fuel v ≠ [] := by
  cases fuel with
  | zero => exact absurd rfl hf
  | succ n =>
    cases v with
    | zero => exact absurd rfl hv
    | succ k => simp [digitsLoopF]

/-- The most significant digit of a non-zero value is not `'0'`. -/
theorem digitsLoopF_getLast :
    ∀ (fuel v : Nat), v ≤ fuel → v ≠ 0 →
      ∀ d, (digitsLoopF fuel v).getLast? = some d → d ≠ 48 := by
  intro fuel
  induction fuel with
  | zero =>
    intro v hv hv0 d _
    omega
  | succ n ih =>
    intro v hv hv0 d hd
    cases v with
    | zero => exact absurd rfl hv0
    | succ k =>
      simp only [digitsLoopF] at hd
      by_cases h10 : (k + 1) / 10 = 0
      · rw [h10, show digitsLoopF n 0 = [] by cases n <;> rfl] at hd
        simp only [List.getLast?_singleton, Option.some.injEq] at hd
        have hlt : k + 1 < 10 := by omega
        have := Nat.mod_eq_of_lt hlt
        omega
      · have hn0 : n ≠ 0 := by
          have : 10 ≤ k + 1 := by omega
          omega
        have hne := digitsLoopF_ne_nil n ((k + 1) / 10) h10 hn0
        obtain ⟨x, hx⟩ : ∃ x, (digitsLoopF n ((k + 1) / 10)).getLast? = some x := by
          cases hgl : (digitsLoopF n ((k + 1) / 10)).getLast? with
          | none => exact absurd (List.getLast?_eq_none_iff.mp hgl) hne
          | some x => exact ⟨x, rfl⟩
        rw [List.getLast?_cons, hx] at hd
        simp only [Option.getD_some, Option.some.injEq] at hd
        have hih := ih ((k + 1) / 10)
          (by have := Nat.div_lt_self (show 0 < k + 1 by omega)
                (show 1 < 10 by omega)
              omega)
          h10 x hx
        omega

/-- `encodeNat` produces only ASCII digit bytes. -/
theorem encodeNat_digits (n : Nat) : ∀ d ∈ encodeNat n, 48 ≤ d ∧ d ≤ 57 := by
  unfold encodeNat
  split
  · intro d hd
    simp at hd
    omega
  · intro d hd
    exact digitsLoopF_digits n n d (List.mem_reverse.mp hd)

/-- `encodeNat` is never empty. -/
theorem encodeNat_ne_nil (n : Nat) : encodeNat n ≠ [] := by
  unfold encodeNat
  split
  · simp
  · simp only [digitsLoop, ne_eq, List.reverse_eq_nil_iff]
    next h => exact digitsLoopF_ne_nil n n h h

/-- Reading the emitted digits back yields the value. -/
theorem readDigits_encodeNat (n : Nat) : readDigits (encodeNat n) = some n := by
  unfold readDigits
  rw [if_neg (by simp [List.isEmpty_iff, encodeNat_ne_nil n]),
    if_pos (by
      simp only [List.all_eq_true, Bool.and_eq_true, decide_eq_true_eq]
      intro d hd
      have := encodeNat_digits n d hd
      omega)]
  congr 1
  unfold encodeNat
  split
  · next h => subst h; rfl
  · next h =>
    simp only [digitsLoop]
    rw [List.foldl_reverse, digitsLoopF_foldr n n (Nat.le_refl n) 0]
    simp

/-- No leading zero: the first emitted digit of a non-zero value is not
`'0'`. -/
theorem encodeNat_head (n : Nat) : n ≠ 0 → (encodeNat n).head? ≠ some 48 := by
  intro hn
  unfold encodeNat
  rw [if_neg hn]
  simp only [digitsLoop, List.head?_reverse]
  intro hcon
  exact digitsLoopF_getLast n n (Nat.le_refl n) hn 48 hcon rfl

/-- Success/failure behaviour of the unsigned-integer writer. -/
theorem unsignedWriteTo_spec (n : Nat) (b : Buffer)
    (hinv : b.data.length ≤ b.cap) :
    (b.data.length + (encodeNat n).length ≤ b.cap →
      unsignedWriteTo n b = (⟨b.data ++ encodeNat n, b.cap⟩, none))
    ∧ (b.cap < b.data.length + (encodeNat n).length →
      (unsignedWriteTo n b).2 = some WErr.space) := by
  by_cases hn : n = 0
  · subst hn
    have e : encodeNat 0 = [48] := rfl
    have eu : unsignedWriteTo 0 b = tryPutU8 b 48 := by
      unfold unsignedWriteTo
      rw [if_pos rfl]
    constructor
    · intro hcap
      rw [e] at hcap ⊢
      rw [eu, tryPutU8_fits b 48 (by simpa using hcap)]
    · intro hcap
      rw [e] at hcap
      rw [eu, tryPutU8_no_fit b 48 hinv (by simpa using hcap)]
  · have e : encodeNat n = (digitsLoop n).reverse := by
      unfold encodeNat
      rw [if_neg hn]
    have eu : unsignedWriteTo n b = tryPutSlice b (digitsLoop n).reverse := by
      unfold unsignedWriteTo
      rw [if_neg hn]
    constructor
    · intro hcap
      rw [e] at hcap ⊢
      rw [eu, tryPutSlice_fits b _ hcap]
    · intro hcap
      rw [e] at hcap
      rw [eu, tryPutSlice_no_fit b _ hinv hcap]

/-- Success/failure behaviour of the signed-integer writer. -/
theorem signedWriteTo_spec (w : Nat) (i : Int) (b : Buffer)
    (hinv : b.data.length ≤ b.cap) :
    (b.data.length + (encodeIntW w i).length ≤ b.cap →
      signedWriteTo w i b = (⟨b.data ++ encodeIntW w i, b.cap⟩, none))
    ∧ (b.cap < b.data.length + (encodeIntW w i).length →
      (signedWriteTo w i b).2 = some WErr.space) := by
  unfold signedWriteTo encodeIntW
  by_cases hi : i < 0
  · simp only [if_pos hi]
    constructor
    · intro hcap
      simp only [List.length_cons] at hcap
      rw [tryPutU8_fits b 45 (by omega)]
      simp only [wseq]
      have h2 := (unsignedWriteTo_spec
        ((2 ^ w - 1 - (i % (2 ^ w : Int)).toNat + 1) % 2 ^ w)
        ⟨b.data ++ [45], b.cap⟩
        (by simp only [List.length_append, List.length_cons, List.length_nil]
            omega)).1
        (by simp only [List.length_append, List.length_cons, List.length_nil]
            omega)
      rw [h2]
      simp
    · intro hcap
      simp only [List.length_cons] at hcap
      by_cases h45 : b.data.length + 1 ≤ b.cap
      · rw [tryPutU8_fits b 45 h45]
        simp only [wseq]
        exact (unsignedWriteTo_spec
          ((2 ^ w - 1 - (i % (2 ^ w : Int)).toNat + 1) % 2 ^ w)
          ⟨b.data ++ [45], b.cap⟩
          (by simp only [List.length_append, List.length_cons, List.length_nil]
              omega)).2
          (by simp only [List.length_append, List.length_cons, List.length_nil]
              omega)
      · rw [tryPutU8_no_fit b 45 hinv (by omega)]
        rfl
  · simp only [if_neg hi]
    exact unsignedWriteTo_spec _ b hinv

/-- For an in-range negative value the source's `!value + 1` wrapping
negation computes the absolute value. -/
theorem twoComplement_neg (w : Nat) (i : Int) (hw : 1 ≤ w)
    (hlo : -(2 ^ (w - 1) : Int) ≤ i) (hi : i < 0) :
    (2 ^ w - 1 - (i % (2 ^ w : Int)).toNat + 1) % 2 ^ w = (-i).toNat := by
  have hPP : (2 : Nat) ^ w = 2 * 2 ^ (w - 1) := by
    conv_lhs => rw [show w = (w - 1) + 1 by omega]
    rw [pow_succ]
    ring
  have hQ1 : (1 : Nat) ≤ 2 ^ (w - 1) := Nat.one_le_two_pow
  have hcast : ((2 ^ w : Nat) : Int) = (2 ^ w : Int) := by push_cast; rfl
  have hcast2 : ((2 ^ (w - 1) : Nat) : Int) = (2 ^ (w - 1) : Int) := by
    push_cast; rfl
  have hmod : i % (2 ^ w : Int) = i + 2 ^ w := by
    have h1 := Int.add_mul_emod_self_left (a := i) (b := (2 : Int) ^ w) (c := 1)
    rw [mul_one] at h1
    rw [← h1]
    apply Int.emod_eq_of_lt
    · omega
    · omega
  rw [hmod]
  have hn1 : 1 ≤ ((i + 2 ^ w : Int)).toNat := by omega
  have hn2 : ((i + 2 ^ w : Int)).toNat < 2 ^ w := by omega
  rw [show (2 ^ w - 1 - ((i + 2 ^ w : Int)).toNat + 1)
      = 2 ^ w - ((i + 2 ^ w : Int)).toNat by omega,
    Nat.mod_eq_of_lt (by omega)]
  omega

/-- On a non-empty all-digit byte string the parser takes the unsigned
branch. -/
theorem readDecimal_digits (l : List Nat) (hne : l ≠ [])
    (h : ∀ d ∈ l, 48 ≤ d ∧ d ≤ 57) :
    readDecimal l = (readDigits l).map (fun n => (n : Int)) := by
  rcases l with _ | ⟨d, t⟩
  · exact absurd rfl hne
  · have hd := h d (by simp)
    have hd45 : ¬d = 45 := by omega
    rw [readDecimal.eq_2] <;> intros <;> simp_all

/-- Claim C6: for every bit width and every in-range signed value (and every
unsigned value), `write_to` with sufficient space emits the plain decimal
ASCII representation — no leading zeros, a leading minus for negatives —
and parsing the emitted bytes back yields the original value; `0` emits
exactly `"0"` and the minimum signed value of width 8 emits `"-128"`. -/
theorem c6_integer_decimal_roundtrip :
    (∀ (w : Nat) (i : Int) (b : Buffer),
      1 ≤ w → -(2 ^ (w - 1) : Int) ≤ i → i < 2 ^ (w - 1) →
      b.data.length ≤ b.cap →
      b.data.length + (encodeIntW w i).length ≤ b.cap →
      signedWriteTo w i b = (⟨b.data ++ encodeIntW w i, b.cap⟩, none)
        ∧ readDecimal (encodeIntW w i) = some i)
    ∧ (∀ (n : Nat) (b : Buffer),
      b.data.length ≤ b.cap →
      b.data.length + (encodeNat n).length ≤ b.cap →
      unsignedWriteTo n b = (⟨b.data ++ encodeNat n, b.cap⟩, none)
        ∧ readDigits (encodeNat n) = some n)
    ∧ encodeNat 0 = [48]
    ∧ (∀ n : Nat, n ≠ 0 → (encodeNat n).head? ≠ some 48)
    ∧ encodeIntW 8 (-128) = [45, 49, 50, 56] := by
  refine ⟨?_, ?_, rfl, encodeNat_head, by decide⟩
  · intro w i b hw hlo hhi hinv hcap
    refine ⟨(signedWriteTo_spec w i b hinv).1 hcap, ?_⟩
    by_cases hi : i < 0
    · have hneg := twoComplement_neg w i hw hlo hi
      rw [encodeIntW, if_pos hi, hneg, readDecimal.eq_1, readDigits_encodeNat]
      show some (-(((-i).toNat : Nat) : Int)) = some i
      congr 1
      omega
    · have hle : (2 : Int) ^ (w - 1) ≤ 2 ^ w :=
        pow_le_pow_right₀ (by norm_num) (by omega)
      have hmod : i % (2 ^ w : Int) = i := Int.emod_eq_of_lt (by omega) (by omega)
      rw [encodeIntW, if_neg hi, hmod,
        readDecimal_digits _ (encodeNat_ne_nil _) (encodeNat_digits _),
        readDigits_encodeNat]
      show some ((i.toNat : Nat) : Int) = some i
      congr 1
      omega
  · intro n b hinv hcap
    exact ⟨(unsignedWriteTo_spec n b hinv).1 hcap, readDigits_encodeNat n⟩

/-- Witness for C6 at the 8-bit minimum. -/
theorem c6_witness :
    signedWriteTo 8 (-128) ⟨[], 4⟩ = (⟨[45, 49, 50, 56], 4⟩, none)
    ∧ readDecimal [45, 49, 50, 56] = some (-128) := by
  have h := c6_integer_decimal_roundtrip.1 8 (-128) ⟨[], 4⟩ (by decide)
    (by decide) (by decide) (by decide) (by decide)
  have e : encodeIntW 8 (-128) = [45, 49, 50, 56] := by decide
  constructor
  · rw [h.1, e]
    rfl
  · have h2 := h.2
    rw [e] at h2
    exact h2

/-! ## Dispatch over the header value types, headers, builder -/

/-- Success/failure behaviour of every `HttpWriteable` implementation the
claims quantify over. -/
theorem hvalue_writeTo_spec (v : HValue) (b : Buffer)
    (hinv : b.data.length ≤ b.cap) :
    (b.data.length + v.encode.length ≤ b.cap →
      v.writeTo b = (⟨b.data ++ v.encode, b.cap⟩, none))
    ∧ (b.cap < b.data.length + v.encode.length →
      (v.writeTo b).2 = some WErr.space) := by
  cases v with
  | bytes l => exact sliceWriteTo_spec l b hinv
  | str l => exact sliceWriteTo_spec l b hinv
  | checked l =>
    constructor
    · intro hcap
      exact tryPutSlice_fits b l hcap
    · intro hcap
      show (tryPutSlice b l).2 = some WErr.space
      rw [tryPutSlice_no_fit b l hinv hcap]
  | unsigned n => exact unsignedWriteTo_spec n b hinv
  | signed w i => exact signedWriteTo_spec w i b hinv

/-- Claim C9: for every `HttpWriteable` value (byte slices, strings,
`CheckedValue`, unsigned and signed integers) and every destination buffer,
when the destination lacks capacity for the bytes being appended,
`write_to` returns `InsufficientSpaceError` — never a panic; and bytes
already appended before the failure may remain (the signed writer leaves
the minus sign behind when the digits no longer fit). -/
theorem c9_insufficient_space_error :
    (∀ (v : HValue) (b : Buffer),
      b.data.length ≤ b.cap →
      b.cap < b.data.length + v.encode.length →
      (v.writeTo b).2 = some WErr.space)
    ∧ (HValue.signed 8 (-5)).writeTo ⟨[], 1⟩ = (⟨[45], 1⟩, some WErr.space) := by
  constructor
  · intro v b hinv hcap
    exact (hvalue_writeTo_spec v b hinv).2 hcap
  · decide

/-- Witness for C9: a concrete overflowing write errors out. -/
theorem c9_witness :
    ((HValue.bytes [104, 105]).writeTo ⟨[], 1⟩).2 = some WErr.space :=
  c9_insufficient_space_error.1 (HValue.bytes [104, 105]) ⟨[], 1⟩
    (by decide) (by decide)

/-- Success behaviour of `Header::write_to`: field, `": "`, value bytes,
CRLF. -/
theorem header_writeTo_spec (h : Header) (b : Buffer)
    (hinv : b.data.length ≤ b.cap)
    (hcap : b.data.length + (encodeHeader h).length ≤ b.cap) :
    h.write_to b = (⟨b.data ++ encodeHeader h, b.cap⟩, none) := by
  have hlen : (encodeHeader h).length
      = h.field.length + 2 + h.value.encode.length + 2 := by
    simp [encodeHeader]
    omega
  rw [hlen] at hcap
  unfold Header.write_to
  rw [tryPutSlice_fits b h.field (by omega)]
  simp only [wseq]
  rw [tryPutSlice_fits _ [58, 32] (by simp; omega)]
  simp only [wseq]
  have h3 := (hvalue_writeTo_spec h.value
    ⟨b.data ++ h.field ++ [58, 32], b.cap⟩ (by simp; omega)).1 (by simp; omega)
  rw [h3]
  simp only [wseq]
  rw [tryPutSlice_fits _ [13, 10] (by simp; omega)]
  simp [encodeHeader, List.append_assoc]

/-- Claim C7: for every start line and every finite header sequence, when
all writes succeed the final buffer is the start-line bytes, the encodings
of the headers in exactly the order supplied (no reordering, deduplication
or merging), each as `field ": " value CRLF`, then the final blank-line
CRLF from `finish()`. -/
theorem c7_builder_preserves_header_order :
    ∀ (hs : List Header) (start : List Nat) (cap : Nat),
      start.length + ((hs.map encodeHeader).flatten).length + 2 ≤ cap →
      wseq (HttpBuilder.headerFold hs ⟨start, cap⟩) HttpBuilder.finish
        = (⟨start ++ (hs.map encodeHeader).flatten ++ [13, 10], cap⟩, none) := by
  intro hs
  induction hs with
  | nil =>
    intro start cap hcap
    simp only [HttpBuilder.headerFold, wseq, HttpBuilder.finish]
    rw [tryPutSlice_fits ⟨start, cap⟩ [13, 10] (by simp at hcap ⊢; omega)]
    simp
  | cons h t ih =>
    intro start cap hcap
    simp only [List.map_cons, List.flatten_cons, List.length_append] at hcap
    simp only [HttpBuilder.headerFold]
    rw [header_writeTo_spec h ⟨start, cap⟩
      (by show start.length ≤ cap; omega)
      (by show start.length + (encodeHeader h).length ≤ cap; omega)]
    rw [wseq_none]
    rw [ih (start ++ encodeHeader h) cap
      (by simp only [List.length_append]; omega)]
    simp [List.append_assoc]

/-- Witness for C7: two headers with the same field name are written twice,
in order, with no merging. -/
theorem c7_witness :
    wseq (HttpBuilder.headerFold
        [⟨[65], HValue.checked [120]⟩, ⟨[65], HValue.checked [121]⟩]
        ⟨[83], 30⟩) HttpBuilder.finish
      = (⟨[83, 65, 58, 32, 120, 13, 10, 65, 58, 32, 121, 13, 10, 13, 10],
          30⟩, none) := by
  have h := c7_builder_preserves_header_order
    [⟨[65], HValue.checked [120]⟩, ⟨[65], HValue.checked [121]⟩]
    [83] 30 (by decide)
  rw [h]
  rfl

/-- Claim C10: building a GET request for target `/` with version HTTP/1.1
through `request(...)` and `finish()` with no headers produces exactly the
bytes of `"GET / HTTP/1.1\r\n\r\n"`; the `GET` constant passes the method
token validation and `/` passes URI validation. -/
theorem c10_get_request_bytes :
    wseq (HttpBuilder.request ⟨[], 50⟩ Method.GET ⟨[47]⟩ Version.HTTP_1_1)
        HttpBuilder.finish
      = (⟨[71, 69, 84, 32, 47, 32, 72, 84, 84, 80, 47, 49, 46, 49, 13, 10,
          13, 10], 50⟩, none)
    ∧ Method.try_new [71, 69, 84] = .ok Method.GET
    ∧ Uri.try_new [47] = .ok ⟨[47]⟩ := by
  refine ⟨rfl, rfl, rfl⟩

/-! ## The three code bugs: C2, C3, C4 -/

/-- Claim C2 (code bug): the spec's token set contains `'.'` (0x2E), and
the comment above `is_token` quotes the RFC 7230 `tchar` grammar including
`.` — but the bitmask `0x57FFFFFFC7FFFFFE03FF2CFA00000000` has bit 46
clear, so `is_token "."` is `false`.  On every other byte value the mask
agrees with the spec's set. -/
theorem c2_is_token_rejects_dot :
    is_token [46] = false
    ∧ specIsToken [46] = true
    ∧ (∀ b : Nat, b = 46 ∨ is_allowed b = specIsTchar b) := by
  refine ⟨by decide, by decide, ?_⟩
  intro b
  by_cases hb : b < 128
  · exact (by decide :
      ∀ b < 128, b = 46 ∨ is_allowed b = specIsTchar b) b hb
  · right
    have h1 : is_allowed b = false := by
      unfold is_allowed
      rw [if_neg (by omega), if_neg (by omega)]
    have h2 : specIsTchar b = false := by
      simp [specIsTchar, specTcharSpecials]
      omega
    rw [h1, h2]

/-- Claim C3 (code bug): `check_valid_const` tests `value[1]`/`value[2]`
instead of `value[idx+1]`/`value[idx+2]`, so `CheckedValue::try_new`
accepts `b"a\r\nb"` although it contains a bare CRLF (spec validity is
false there), and rejects `b"a\n\rx"` although it contains no CRLF at
all. -/
theorem c3_check_valid_const_misindexes :
    CheckedValue.try_new [97, 13, 10, 98] = .ok [97, 13, 10, 98]
    ∧ specValueValid [97, 13, 10, 98] = false
    ∧ check_valid_const [97, 10, 13, 120] = false
    ∧ specValueValid [97, 10, 13, 120] = true := by
  refine ⟨rfl, by decide, by decide, by decide⟩

set_option maxRecDepth 8000 in
/-- Claim C4 (code bug): `Status::reason_phrase` guards the table lookup
with `code > REASON_PHRASES.len() + 100`, so code 512 passes the guard and
indexes `REASON_PHRASES[412]`, one past the end of the 412-entry table — a
panic (modelled as `.error`), contradicting the claim that `Status::new`
succeeds for every u16.  Codes below 100, codes above 512 and registered
codes behave as the claim says (418 yields the teapot phrase). -/
theorem c4_status_new_panics_at_512 :
    Status.new 512 = .error ()
    ∧ REASON_PHRASES.length = 412
    ∧ Status.new 418 = .ok ⟨418, some "I'm a Teapot"⟩
    ∧ Status.new 99 = .ok ⟨99, none⟩
    ∧ Status.new 513 = .ok ⟨513, none⟩
    ∧ Status.new 65535 = .ok ⟨65535, none⟩
    ∧ Status.reasonStr ⟨99, none⟩ = "" := by
  refine ⟨rfl, rfl, rfl, rfl, rfl, rfl, rfl⟩

/-! ## C8: the two URI validators agree -/

/-- `findIdx?` finds nothing iff no element satisfies the predicate,
whatever the start index. -/
theorem findIdx_isNone_all (p : Nat → Bool) (l : List Nat) :
    ∀ i, (List.findIdx? p l i).isNone = l.all (fun x => !p x) := by
  induction l with
  | nil => intro i; rfl
  | cons x t ih =>
    intro i
    rw [List.findIdx?_cons]
    by_cases h : p x = true
    · simp [h]
    · simp only [Bool.not_eq_true] at h
      simp [h, ih]

/-- Claim C8: the runtime validator `Uri::try_new` (memchr3 path) and the
const validator `Uri::try_new_const` (sequential `validate_uri` path)
return identical results on every byte slice, and both accept exactly the
non-empty slices containing no space, CR or LF byte (everything else,
non-ASCII included, is permitted); otherwise both return the
`InvalidUriError`. -/
theorem c8_uri_validators_agree :
    ∀ uri : List Nat,
      Uri.try_new uri = Uri.try_new_const uri
      ∧ (Uri.try_new uri = .ok ⟨uri⟩
          ↔ uri ≠ [] ∧ ∀ b ∈ uri, b ≠ 32 ∧ b ≠ 13 ∧ b ≠ 10) := by
  intro uri
  have hm : (memchr3 32 13 10 uri).isNone
      = uri.all (fun x => !(x == 32 || x == 13 || x == 10)) :=
    findIdx_isNone_all _ uri 0
  constructor
  · unfold Uri.try_new Uri.try_new_const validate_uri
    rw [hm]
    cases hE : uri.isEmpty
    all_goals cases hA : uri.all (fun x => !(x == 32 || x == 13 || x == 10))
    all_goals rfl
  · unfold Uri.try_new
    rw [hm]
    constructor
    · intro h
      by_cases hcond : (!uri.isEmpty
          && uri.all fun x => !(x == 32 || x == 13 || x == 10)) = true
      · simp only [Bool.and_eq_true, Bool.not_eq_true', List.all_eq_true]
          at hcond
        constructor
        · intro hnil
          rw [hnil] at hcond
          exact absurd hcond.1 (by simp)
        · intro b hb
          have hbb := hcond.2 b hb
          simp only [Bool.not_eq_true', Bool.or_eq_false_iff,
            beq_eq_false_iff_ne, ne_eq] at hbb
          exact ⟨hbb.1.1, hbb.1.2, hbb.2⟩
      · rw [if_neg hcond] at h
        exact absurd h (by simp)
    · rintro ⟨h1, h2⟩
      have hc1 : (!uri.isEmpty) = true := by
        cases uri with
        | nil => exact absurd rfl h1
        | cons x t => rfl
      have hc2 : (uri.all fun x => !(x == 32 || x == 13 || x == 10)) = true := by
        rw [List.all_eq_true]
        intro b hb
        have hbb := h2 b hb
        simp only [Bool.not_eq_true', Bool.or_eq_false_iff,
          beq_eq_false_iff_ne, ne_eq]
        exact ⟨⟨hbb.1, hbb.2.1⟩, hbb.2.2⟩
      rw [if_pos (by rw [Bool.and_eq_true]; exact ⟨hc1, hc2⟩)]

end Httpencode
